import Mathlib

/-!
# Verification of `onidle.py`

A shallow embedding of the idle-detection script `onidle.py`.

A probe returns a trinary verdict, modelled exactly as the Python values:
`some true` (idle), `some false` (busy), `none` (the probe cannot decide).
A probe may instead raise an exception, modelled as `Except.error ()`.

OS-level inputs (journal text, `/proc` contents, `who` output, wall-clock
time, the result of each probe call) are parameters of the embedded
functions; Python floats are embedded as rationals and Python `int()`
as truncation toward zero.  Purely diagnostic prints whose text is
dynamic (timestamps, repr of results) are elided from the event traces;
the structurally relevant effects (probe invocations, sleeps, launching
the maintenance command, the `--list` output lines) are kept.
-/

namespace Onidle

/-- Python `int()` applied to a rational: truncation toward zero
(`Int.tdiv` of the numerator by the positive denominator). -/
def pyint (q : ℚ) : Int := q.num.tdiv q.den

deriving instance DecidableEq for Except

/-- A probe verdict as `onidle.py` represents it: `True` / `False` / `None`. -/
abbrev Verdict := Option Bool

/-- One line of `journalctl -t systemd-sleep` output, abstracted to the two
facts `systemd_wake` extracts from it: the timestamp its first 15 characters
parse to (in seconds) and whether the line ends with
"System returned from sleep state." -/
structure JLine where
  ts : Int
  isWake : Bool
  deriving DecidableEq, Repr

/-- `systemd_wake` from `onidle.py`.  The `for` loop records the last line
ending in the wake sentinel in `last_wake_line` and leaves the loop variable
`line` bound to the LAST iterated line; the source then parses the timestamp
from `line[:15]` (not from `last_wake_line`), so the elapsed time is computed
from the final journal line, whichever it is.  `journal` is the line list
`lines(r.stdout)`, `now` the current time in seconds. -/
def systemd_wake (journal : List JLine) (now : Int) : Option Bool :=
  let last_wake_line := journal.foldl (fun acc l => if l.isWake then some l else acc) none
  match last_wake_line, journal.getLast? with
  | none, _ => none
  | some _, none => none
  | some _, some line => some (decide ((now - line.ts : Int) ≥ 60 * 10))

/-- The wake-recency probe as the specification words it: Idle once at least
10 minutes have elapsed since the LAST RECORDED WAKE EVENT, `Unknown` if no
wake event is found.  Kept beside `systemd_wake` to compare the code with the
spec. -/
def wake_recency_spec (journal : List JLine) (now : Int) : Option Bool :=
  match journal.foldl (fun acc l => if l.isWake then some l else acc) none with
  | none => none
  | some w => some (decide ((now - w.ts : Int) ≥ 60 * 10))

/-- `proc_uptime` from `onidle.py`: `total_seconds` is the first float of
`/proc/uptime`; `total_minutes = int(total_seconds / 60)`; the probe returns
`total_minutes > 10`. -/
def proc_uptime (total_seconds : ℚ) : Bool :=
  let total_minutes : Int := pyint (total_seconds / 60)
  decide (total_minutes > 10)

/-- `proc_loadavg` from `onidle.py`: `cpu_count = os.cpu_count()`,
`current_load = os.getloadavg()[0]`, `half_cpu_count = int(cpu_count / 2)`;
the probe returns `current_load < half_cpu_count`. -/
def proc_loadavg (cpu_count : Nat) (current_load : ℚ) : Bool :=
  let half_cpu_count : Int := pyint ((cpu_count : ℚ) / 2)
  decide (current_load < (half_cpu_count : ℚ))

/-- The idle field (`fields[4]`) of one `who -u` output line, abstracted to
the three shapes `idle_terminal`'s inner `parse` distinguishes: the string
`"."` (session currently active), a string with no `":"` in it (e.g. `"old"`),
and a string `"H:M"` splitting into two numbers. -/
inductive IdleField where
  | dot
  | nocolon
  | hm (h m : Nat)
  deriving DecidableEq, Repr

/-- The inner `parse` of `idle_terminal`: minutes of inactivity from the idle
field, `None` when the field has no `":"`; `"."` parses to `0`;
`"H:M"` parses to `H * 60 + M`. -/
def parse : IdleField → Option Nat
  | .dot => some 0
  | .nocolon => none
  | .hm h m => some (h * 60 + m)

/-- Python `min` on a list of naturals: raises `ValueError` on an empty
sequence, otherwise folds the binary minimum over the elements. -/
def pymin : List Nat → Except Unit Nat
  | [] => Except.error ()
  | x :: xs => Except.ok (xs.foldl Nat.min x)

/-- `idle_terminal` from `onidle.py`: parse the idle field of every session
line, keep the parseable ones, take `min` (which raises on an empty list) and
compare with the 5-minute threshold. -/
def idle_terminal (sessions : List IdleField) : Except Unit Bool :=
  let tmp := sessions.filterMap parse
  match pymin tmp with
  | Except.error e => Except.error e
  | Except.ok idle_minutes => Except.ok (decide (idle_minutes ≥ 5))

/-- The inactivity, in minutes, that a session's idle field stands for: a
currently-active session (`"."`) counts as zero.  Used to state what
`idle_terminal` computes on parseable fields. -/
def minutes : IdleField → Nat
  | .dot => 0
  | .nocolon => 0
  | .hm h m => h * 60 + m

/-! ## The probe registry and the polling engine -/

/-- The probe functions of `onidle.py`, by name. -/
inductive ProbeId where
  | systemd_wake
  | proc_uptime
  | proc_loadavg
  | idle_terminal
  | xprintidle
  deriving DecidableEq, Repr

/-- `p.__name__` for each probe function. -/
def probeName : ProbeId → String
  | .systemd_wake => "systemd_wake"
  | .proc_uptime => "proc_uptime"
  | .proc_loadavg => "proc_loadavg"
  | .idle_terminal => "idle_terminal"
  | .xprintidle => "xprintidle"

/-- `init_probes` from `onidle.py`: the four always-selected probes, plus
`xprintidle` when `which("xprintidle")` found a path. -/
def init_probes (xprintidle_path : Option String) : List ProbeId :=
  let probes := [ProbeId.systemd_wake, ProbeId.proc_uptime,
    ProbeId.proc_loadavg, ProbeId.idle_terminal]
  match xprintidle_path with
  | some _ => probes ++ [ProbeId.xprintidle]
  | none => probes

/-- The outcome of calling one probe: a verdict, or a raised exception. -/
abbrev ProbeResult := Except Unit Verdict

/-- An observable effect of a run: a printed line, a probe invocation,
a `time.sleep(60)`, or running the maintenance command. -/
inductive Event where
  | print (s : String)
  | probeCall (p : ProbeId)
  | sleepEv
  | launch (cmd : List String)
  deriving DecidableEq, Repr

def isLaunch : Event → Bool
  | Event.launch _ => true
  | _ => false

def isSleep : Event → Bool
  | Event.sleepEv => true
  | _ => false

/-- The aggregation of `onidle.py`, `all(x != False for x in results)`:
`true` iff no verdict in the list is `False`. -/
def decision (results : List Verdict) : Bool :=
  results.all fun x => x != some false

/-- The list comprehension `[probe() for probe in all_probes]`: probes are
called left to right; the first raised exception propagates, so the probes
after it are not called and no result list is produced.  `behav p` is the
outcome of calling probe `p` in this cycle.  Returns the trace of probe
invocations together with the comprehension's outcome. -/
def runProbes (behav : ProbeId → ProbeResult) :
    List ProbeId → List Event × Except Unit (List Verdict)
  | [] => ([], Except.ok [])
  | p :: ps =>
    match behav p with
    | Except.error e => ([Event.probeCall p], Except.error e)
    | Except.ok v =>
      let rest := runProbes behav ps
      (Event.probeCall p :: rest.1, rest.2.map fun vs => v :: vs)

/-- The one-shot `while True:` loop of `main`: evaluate all probes; an
exception propagates out of the loop (ending the process); on a `true`
decision run the command and return; otherwise sleep and repeat.  `behav i`
gives the probes' outcomes in cycle `i`; `fuel` bounds how many cycles are
unrolled. -/
def mainLoop (behav : Nat → ProbeId → ProbeResult) (probes : List ProbeId)
    (cmd : List String) : Nat → Nat → List Event
  | 0, _ => []
  | fuel + 1, i =>
    match (runProbes (behav i) probes).2 with
    | Except.error _ => (runProbes (behav i) probes).1
    | Except.ok results =>
      if decision results then (runProbes (behav i) probes).1 ++ [Event.launch cmd]
      else (runProbes (behav i) probes).1 ++
        Event.sleepEv :: mainLoop behav probes cmd fuel (i + 1)

/-- The `--test` loop of `onidle.py` (`test(probes)`): evaluate all probes,
print the aggregate result, sleep, repeat forever; it never launches the
command.  An exception propagates as in `mainLoop`. -/
def testLoop (behav : Nat → ProbeId → ProbeResult) (probes : List ProbeId) :
    Nat → Nat → List Event
  | 0, _ => []
  | fuel + 1, i =>
    match (runProbes (behav i) probes).2 with
    | Except.error _ => (runProbes (behav i) probes).1
    | Except.ok results =>
      (runProbes (behav i) probes).1 ++
        Event.print (toString (decision results)) ::
        Event.sleepEv :: testLoop behav probes fuel (i + 1)

/-- The parsed command line of `onidle.py` as `main` consumes it. -/
structure Args where
  test : Bool
  list : Bool
  command : List String

/-- `main` from `onidle.py`, as the trace of events it produces:
build the probe list; in `--list` mode print the probe names and return;
in `--test` mode run the continuous loop; otherwise run the one-shot loop. -/
def main (args : Args) (xprintidle_path : Option String)
    (behav : Nat → ProbeId → ProbeResult) (fuel : Nat) : List Event :=
  let all_probes := init_probes xprintidle_path
  if args.list then
    Event.print "All Probes:" ::
      all_probes.map fun p => Event.print (" * " ++ probeName p)
  else if args.test then
    testLoop behav all_probes fuel 0
  else
    mainLoop behav all_probes args.command fuel 0

/-! ## Arithmetic facts about `pyint` -/

/-- On a nonnegative rational, Python `int()` is the floor. -/
theorem pyint_eq_floor (q : ℚ) (h : 0 ≤ q) : pyint q = ⌊q⌋ := by
  rw [pyint, Rat.floor_def]
  exact Int.tdiv_eq_ediv (Rat.num_nonneg.mpr h) (Int.natCast_nonneg q.den)

/-- `int(a / b)` on naturals is natural (floor) division. -/
theorem pyint_natCast_div (a b : Nat) :
    pyint ((a : ℚ) / (b : ℚ)) = ((a / b : Nat) : Int) := by
  rw [pyint_eq_floor _ (div_nonneg (Nat.cast_nonneg a) (Nat.cast_nonneg b))]
  exact_mod_cast Rat.floor_natCast_div_natCast a b

/-! ## Claims about the aggregation (C1) -/

/-- C1: the decision of a cycle is `true` iff no verdict in the cycle's
result vector is `Busy` (`some false`); `Unknown` (`none`) and `Idle`
(`some true`) do not block, and the empty vector decides `true`. -/
theorem decision_true_iff_no_busy :
    (∀ results : List Verdict, (decision results = true ↔ some false ∉ results)) ∧
      decision [] = true := by
  refine ⟨fun results => ?_, rfl⟩
  rw [decision, List.all_eq_true]
  constructor
  · intro h hmem
    exact absurd (h _ hmem) (by simp)
  · intro h x hx
    have : x ≠ some false := fun he => h (he ▸ hx)
    simpa using this

/-! ## Claims about `proc_uptime` (C3) -/

/-- C3 amended: the uptime probe returns `Idle` iff the whole minutes of
uptime, `int(total_seconds / 60)`, strictly exceed 10 — that is, for a
nonnegative uptime, iff the uptime is at least 660 seconds.  In particular
it returns `Busy` at both 599 and 601 seconds. -/
theorem proc_uptime_true_iff (s : ℚ) (hs : 0 ≤ s) : proc_uptime s = true ↔ 660 ≤ s := by
  have h60 : (0 : ℚ) < 60 := by norm_num
  simp only [proc_uptime, decide_eq_true_eq, gt_iff_lt]
  rw [pyint_eq_floor _ (div_nonneg hs h60.le)]
  rw [show ((10 : Int) < ⌊s / 60⌋ ↔ 11 ≤ ⌊s / 60⌋) from by omega]
  rw [Int.le_floor, le_div_iff₀ h60]
  norm_num

/-- C3 witness: at the 660-second boundary the probe is `Idle`. -/
theorem proc_uptime_true_iff_witness : proc_uptime 660 = true :=
  (proc_uptime_true_iff 660 (by norm_num)).mpr (by norm_num)

/-- `proc_uptime` at a whole number of seconds, stated over `Nat`. -/
theorem proc_uptime_nat (a : Nat) :
    proc_uptime ((a : ℚ)) = decide (10 < (a / 60 : Nat)) := by
  have h60 : ((60 : ℚ)) = ((60 : Nat) : ℚ) := by norm_num
  simp only [proc_uptime, h60, pyint_natCast_div]
  rw [decide_eq_decide]
  omega

/-- C3 counterexample: the claim says the probe is `Idle` at 601 seconds of
uptime, but `int(601 / 60) = 10` and `10 > 10` is false, so it is `Busy`. -/
theorem proc_uptime_at_601 : proc_uptime 601 = false := by
  have h := proc_uptime_nat 601
  norm_num at h
  exact h

/-! ## Claims about `proc_loadavg` (C5) -/

/-- C5 amended: the load-average probe returns `Idle` iff the 1-minute load
is strictly below `int(cpu_count / 2)` — the integer half of the CPU count,
rounded down — not below `cpu_count / 2` exactly.  For `n = 8` the threshold
is 4, as the claim says, but for odd `n` the two differ. -/
theorem proc_loadavg_true_iff (n : Nat) (L : ℚ) :
    proc_loadavg n L = true ↔ L < ((n / 2 : Nat) : ℚ) := by
  have h2 : ((2 : ℚ)) = ((2 : Nat) : ℚ) := by norm_num
  simp only [proc_loadavg, h2, pyint_natCast_div, decide_eq_true_eq, Int.cast_natCast]

/-- C5 counterexample: for 7 CPUs the code's threshold is `int(7 / 2) = 3`,
so a load of 3.2 gives `Busy` although 3.2 is strictly less than half of 7. -/
theorem proc_loadavg_at_7_cpus :
    proc_loadavg 7 (16 / 5) = false ∧ (16 / 5 : ℚ) < 7 / 2 := by
  constructor
  · have h2 : ((2 : ℚ)) = ((2 : Nat) : ℚ) := by norm_num
    simp only [proc_loadavg, h2, pyint_natCast_div, Int.cast_natCast]
    norm_num
  · norm_num

/-! ## Claims about `systemd_wake` (C4) -/

/-- C4 (code bug): the journal holds a wake line at time 0 followed by a
non-wake line at time 60; at `now = 630` the wake is 630 ≥ 600 seconds old,
so per the claim the probe should be `Idle`, but the code computes the age
from the loop variable `line` — the LAST journal line, 570 seconds old — and
returns `Busy`.  `wake_recency_spec` is the spec's reading of the probe. -/
theorem systemd_wake_uses_wrong_line :
    systemd_wake [⟨0, true⟩, ⟨60, false⟩] 630 = some false ∧
      wake_recency_spec [⟨0, true⟩, ⟨60, false⟩] 630 = some true := by
  constructor <;> rfl

/-! ## Claims about `idle_terminal` (C9, C10) -/

/-- `parse` succeeds exactly on the fields other than the colon-free marker,
and then yields the session's inactivity in minutes. -/
theorem parse_eq_minutes (s : IdleField) (h : s ≠ IdleField.nocolon) :
    parse s = some (minutes s) := by
  cases s with
  | dot => rfl
  | nocolon => exact absurd rfl h
  | hm a b => rfl

theorem filterMap_parse_eq_map (sessions : List IdleField)
    (h : ∀ s ∈ sessions, s ≠ IdleField.nocolon) :
    sessions.filterMap parse = sessions.map minutes := by
  induction sessions with
  | nil => rfl
  | cons s ss ih =>
    rw [List.filterMap_cons, parse_eq_minutes s (h s (List.mem_cons_self s ss))]
    rw [List.map_cons, ih fun t ht => h t (List.mem_cons_of_mem s ht)]

/-- A left fold of `Nat.min` is at least `k` iff every participant is. -/
theorem le_foldl_min_iff (k : Nat) :
    ∀ (xs : List Nat) (x : Nat), k ≤ xs.foldl Nat.min x ↔ k ≤ x ∧ ∀ v ∈ xs, k ≤ v := by
  intro xs
  induction xs with
  | nil => simp
  | cons y ys ih =>
    intro x
    rw [List.foldl_cons, ih (Nat.min x y)]
    simp only [Nat.le_min, List.mem_cons]
    constructor
    · rintro ⟨⟨hx, hy⟩, hall⟩
      exact ⟨hx, fun v hv => hv.elim (fun he => he ▸ hy) (hall v)⟩
    · rintro ⟨hx, hall⟩
      exact ⟨⟨hx, hall y (Or.inl rfl)⟩, fun v hv => hall v (Or.inr hv)⟩

/-- C9: on a nonempty session list whose idle fields all parse, the
terminal-inactivity probe answers `Idle` exactly when every session —
hence the minimum — has been inactive at least 5 minutes, a currently
active session (`"."`) counting as 0 minutes. -/
theorem idle_terminal_min_threshold (sessions : List IdleField)
    (hne : sessions ≠ []) (hp : ∀ s ∈ sessions, s ≠ IdleField.nocolon) :
    idle_terminal sessions = Except.ok (decide (∀ s ∈ sessions, 5 ≤ minutes s)) := by
  cases sessions with
  | nil => exact absurd rfl hne
  | cons s ss =>
    simp only [idle_terminal, filterMap_parse_eq_map _ hp, List.map_cons, pymin]
    congr 1
    rw [decide_eq_decide]
    rw [ge_iff_le, le_foldl_min_iff]
    constructor
    · rintro ⟨hs, hall⟩ t ht
      rcases List.mem_cons.mp ht with rfl | ht
      · exact hs
      · exact hall _ (List.mem_map_of_mem minutes ht)
    · intro h
      refine ⟨h s (List.mem_cons_self s ss), fun v hv => ?_⟩
      obtain ⟨t, ht, rfl⟩ := List.mem_map.mp hv
      exact h t (List.mem_cons_of_mem s ht)

/-- C9 witness: the claim's two examples — inactivity minutes
`[0, 12, 20]` give `Busy`, `[7, 9]` give `Idle`. -/
theorem idle_terminal_min_threshold_witness :
    idle_terminal [IdleField.dot, IdleField.hm 0 12, IdleField.hm 0 20] = Except.ok false ∧
      idle_terminal [IdleField.hm 0 7, IdleField.hm 0 9] = Except.ok true :=
  ⟨(idle_terminal_min_threshold [IdleField.dot, IdleField.hm 0 12, IdleField.hm 0 20]
      (by decide) (by decide)).trans (by decide),
    (idle_terminal_min_threshold [IdleField.hm 0 7, IdleField.hm 0 9]
      (by decide) (by decide)).trans (by decide)⟩

/-- C10: when no session's idle field parses to a number — no sessions at
all, or every field a colon-free marker other than `"."` — `min` is applied
to an empty list, so the probe raises instead of returning `Unknown`. -/
theorem idle_terminal_raises_when_unparseable (sessions : List IdleField)
    (h : ∀ s ∈ sessions, parse s = none) :
    idle_terminal sessions = Except.error () := by
  rw [idle_terminal, List.filterMap_eq_nil_iff.mpr h, pymin]

/-- C10 witness: the probe raises on an empty session list and on a single
session whose idle field is the colon-free marker `"old"`. -/
theorem idle_terminal_raises_when_unparseable_witness :
    idle_terminal [] = Except.error () ∧
      idle_terminal [IdleField.nocolon] = Except.error () :=
  ⟨idle_terminal_raises_when_unparseable [] (by decide),
    idle_terminal_raises_when_unparseable [IdleField.nocolon] (by decide)⟩

/-! ## Trace lemmas for the engine -/

/-- Every event a cycle's probe evaluation emits is a probe invocation. -/
theorem runProbes_trace_probeCalls (behav : ProbeId → ProbeResult) :
    ∀ (ps : List ProbeId) (e : Event), e ∈ (runProbes behav ps).1 → ∃ p, e = Event.probeCall p := by
  intro ps
  induction ps with
  | nil => intro e he; simp [runProbes] at he
  | cons p ps ih =>
    intro e he
    cases hb : behav p with
    | error err =>
      simp only [runProbes, hb] at he
      simp at he
      exact ⟨p, he⟩
    | ok v =>
      simp only [runProbes, hb] at he
      rcases List.mem_cons.mp he with rfl | he
      · exact ⟨p, rfl⟩
      · exact ih e he

/-- A cycle's probe-evaluation trace holds no event of another kind. -/
theorem runProbes_countP_zero (behav : ProbeId → ProbeResult) (ps : List ProbeId)
    (p : Event → Bool) (h : ∀ q, p (Event.probeCall q) = false) :
    (runProbes behav ps).1.countP p = 0 := by
  rw [List.countP_eq_zero]
  intro e he
  obtain ⟨q, rfl⟩ := runProbes_trace_probeCalls behav ps e he
  simp [h q]

theorem launch_not_mem_runProbes (behav : ProbeId → ProbeResult) (ps : List ProbeId)
    (cmd : List String) : Event.launch cmd ∉ (runProbes behav ps).1 := by
  intro hmem
  obtain ⟨q, hq⟩ := runProbes_trace_probeCalls behav ps _ hmem
  exact Event.noConfusion hq

/-- Evaluating probes of which the first `ps` succeed and then `p` raises:
exactly `ps` and `p` are invoked, the probes after `p` are not, and the
evaluation's outcome is the raised error, not a verdict vector. -/
theorem runProbes_error_split (behav : ProbeId → ProbeResult) (e : Unit) :
    ∀ (ps : List ProbeId) (p : ProbeId) (qs : List ProbeId),
      (∀ q ∈ ps, ∃ v, behav q = Except.ok v) → behav p = Except.error e →
      runProbes behav (ps ++ p :: qs) = ((ps ++ [p]).map Event.probeCall, Except.error e) := by
  intro ps
  induction ps with
  | nil =>
    intro p qs _ hp
    simp [runProbes, hp]
  | cons q ps ih =>
    intro p qs hok hp
    obtain ⟨v, hv⟩ := hok q (List.mem_cons_self q ps)
    have hrec := ih p qs (fun r hr => hok r (List.mem_cons_of_mem q hr)) hp
    simp [runProbes, hv, hrec, Except.map]

/-- Splitting a list around a distinguished element `a` that a known prefix
`xs ++ [b]` cannot contain: the split point lies in the tail. -/
theorem eq_append_cons_split {α : Type} {a b : α} (hab : a ≠ b) :
    ∀ (xs pre post rec : List α), a ∉ xs → xs ++ b :: rec = pre ++ a :: post →
      ∃ pre₁, pre = xs ++ b :: pre₁ ∧ rec = pre₁ ++ a :: post := by
  intro xs
  induction xs with
  | nil =>
    intro pre post rec _ heq
    cases pre with
    | nil =>
      simp only [List.nil_append] at heq
      exact absurd (List.cons_eq_cons.mp heq).1.symm hab
    | cons y pre₁ =>
      simp only [List.nil_append, List.cons_append, List.cons_eq_cons] at heq
      exact ⟨pre₁, by simp [heq.1.symm], heq.2⟩
  | cons x xs ih =>
    intro pre post rec hnot heq
    cases pre with
    | nil =>
      simp only [List.cons_append, List.nil_append, List.cons_eq_cons] at heq
      exact absurd (heq.1 ▸ List.mem_cons_self x xs) hnot
    | cons y pre₁ =>
      simp only [List.cons_append, List.cons_eq_cons] at heq
      obtain ⟨pre₂, h1, h2⟩ :=
        ih pre₁ post rec (fun hm => hnot (List.mem_cons_of_mem x hm)) heq.2
      exact ⟨pre₂, by simp [heq.1, h1], h2⟩

/-- A list ending in its only occurrence of `a` splits at `a` in one way. -/
theorem eq_append_singleton_split {α : Type} {a : α} :
    ∀ (xs pre post : List α), a ∉ xs → xs ++ [a] = pre ++ a :: post →
      pre = xs ∧ post = [] := by
  intro xs
  induction xs with
  | nil =>
    intro pre post _ heq
    cases pre with
    | nil => simpa using heq
    | cons y pre₁ =>
      simp only [List.nil_append, List.cons_append, List.cons_eq_cons] at heq
      exact absurd heq.2.symm (by simp)
  | cons x xs ih =>
    intro pre post hnot heq
    cases pre with
    | nil =>
      simp only [List.cons_append, List.nil_append, List.cons_eq_cons] at heq
      exact absurd (heq.1 ▸ List.mem_cons_self x xs) hnot
    | cons y pre₁ =>
      simp only [List.cons_append, List.cons_eq_cons] at heq
      obtain ⟨h1, h2⟩ := ih pre₁ post (fun hm => hnot (List.mem_cons_of_mem x hm)) heq.2
      exact ⟨by simp [heq.1, h1], h2⟩

/-! ## Claims about probe failure in a cycle (C2) -/

/-- C2 amended: when a probe raises during a cycle, the cycle does NOT
exclude it and continue — the list comprehension stops at the first failing
probe, the remaining probes are not invoked, no verdict vector is produced,
and the exception propagates out of the `while` loop, ending the run with
the events emitted so far and never launching the command. -/
theorem probe_failure_aborts_cycle (behav : Nat → ProbeId → ProbeResult)
    (ps qs : List ProbeId) (p : ProbeId) (cmd : List String) (fuel : Nat)
    (hok : ∀ q ∈ ps, ∃ v, behav 0 q = Except.ok v) (hp : behav 0 p = Except.error ()) :
    runProbes (behav 0) (ps ++ p :: qs) = ((ps ++ [p]).map Event.probeCall, Except.error ()) ∧
      mainLoop behav (ps ++ p :: qs) cmd (fuel + 1) 0 = (ps ++ [p]).map Event.probeCall := by
  have h := runProbes_error_split (behav 0) () ps p qs hok hp
  refine ⟨h, ?_⟩
  simp [mainLoop, h]

/-- A cycle behaviour under which the first probe raises and every other
probe would answer `Idle`. -/
def failBehav : Nat → ProbeId → ProbeResult := fun _ p =>
  match p with
  | ProbeId.systemd_wake => Except.error ()
  | _ => Except.ok (some true)

/-- C2 counterexample: with the default probe list and `systemd_wake`
raising, the cycle's evaluation ends in an error rather than the verdict
vector of the three remaining probes, and `proc_uptime` — a remaining
probe — is never invoked, contradicting "the remaining probes still run and
the cycle completes". -/
theorem failing_probe_not_excluded :
    (runProbes (failBehav 0) (init_probes none)).2 = Except.error () ∧
      Event.probeCall ProbeId.proc_uptime ∉ (runProbes (failBehav 0) (init_probes none)).1 := by
  decide

/-- C2 witness: the amended statement at a concrete behaviour. -/
theorem probe_failure_aborts_cycle_witness :
    runProbes (failBehav 0)
        ([] ++ ProbeId.systemd_wake ::
          [ProbeId.proc_uptime, ProbeId.proc_loadavg, ProbeId.idle_terminal]) =
      (([] ++ [ProbeId.systemd_wake]).map Event.probeCall, Except.error ()) ∧
      mainLoop failBehav
          ([] ++ ProbeId.systemd_wake ::
            [ProbeId.proc_uptime, ProbeId.proc_loadavg, ProbeId.idle_terminal]) [] (0 + 1) 0 =
        ([] ++ [ProbeId.systemd_wake]).map Event.probeCall :=
  probe_failure_aborts_cycle failBehav []
    [ProbeId.proc_uptime, ProbeId.proc_loadavg, ProbeId.idle_terminal]
    ProbeId.systemd_wake [] 0 (fun q hq => absurd hq (List.not_mem_nil q)) rfl

/-! ## The one-shot loop fires at most once (C6) -/

theorem mainLoop_once_aux (behav : Nat → ProbeId → ProbeResult) (probes : List ProbeId)
    (cmd : List String) :
    ∀ (fuel i : Nat), (mainLoop behav probes cmd fuel i).countP isLaunch ≤ 1 ∧
      ∀ pre post, mainLoop behav probes cmd fuel i = pre ++ Event.launch cmd :: post →
        post = [] ∧ ∃ j r pre₀, (runProbes (behav j) probes).2 = Except.ok r ∧
          decision r = true ∧ pre = pre₀ ++ (runProbes (behav j) probes).1 := by
  intro fuel
  induction fuel with
  | zero =>
    intro i
    refine ⟨by simp [mainLoop], fun pre post heq => ?_⟩
    rw [mainLoop] at heq
    exact absurd heq.symm (by simp)
  | succ fuel ih =>
    intro i
    have hct : (runProbes (behav i) probes).1.countP isLaunch = 0 :=
      runProbes_countP_zero (behav i) probes isLaunch fun q => rfl
    have hnl : Event.launch cmd ∉ (runProbes (behav i) probes).1 :=
      launch_not_mem_runProbes (behav i) probes cmd
    cases hres : (runProbes (behav i) probes).2 with
    | error e =>
      have hml : mainLoop behav probes cmd (fuel + 1) i = (runProbes (behav i) probes).1 := by
        simp [mainLoop, hres]
      refine ⟨by simp [hml, hct], fun pre post heq => ?_⟩
      rw [hml] at heq
      exact absurd (heq ▸ List.mem_append.mpr (Or.inr (List.mem_cons_self _ _))) hnl
    | ok results =>
      cases hdec : decision results with
      | true =>
        have hml : mainLoop behav probes cmd (fuel + 1) i =
            (runProbes (behav i) probes).1 ++ [Event.launch cmd] := by
          simp [mainLoop, hres, hdec]
        refine ⟨?_, fun pre post heq => ?_⟩
        · simp [hml, List.countP_append, hct, List.countP_cons, isLaunch]
        · rw [hml] at heq
          obtain ⟨hpre, hpost⟩ := eq_append_singleton_split _ _ _ hnl heq
          exact ⟨hpost, i, results, [], hres, hdec, by simp [hpre]⟩
      | false =>
        have hml : mainLoop behav probes cmd (fuel + 1) i =
            (runProbes (behav i) probes).1 ++
              Event.sleepEv :: mainLoop behav probes cmd fuel (i + 1) := by
          simp [mainLoop, hres, hdec]
        refine ⟨?_, fun pre post heq => ?_⟩
        · rw [hml]
          simp only [List.countP_append, List.countP_cons, hct]
          simpa [isLaunch] using (ih (i + 1)).1
        · rw [hml] at heq
          obtain ⟨pre₁, hpre, hrec⟩ :=
            eq_append_cons_split (by simp) _ _ _ _ hnl heq
          obtain ⟨hpost, j, r, pre₀, h1, h2, h3⟩ := (ih (i + 1)).2 pre₁ post hrec
          exact ⟨hpost, j, r, (runProbes (behav i) probes).1 ++ Event.sleepEv :: pre₀,
            h1, h2, by simp [hpre, h3]⟩

/-- C6: over every run of the one-shot loop, the maintenance command is
launched at most once; and whenever the trace holds a launch, nothing
follows it (the loop returns immediately after) and the launch comes
immediately after the probe invocations of a cycle whose evaluation
succeeded and whose decision is `true`. -/
theorem one_shot_launches_at_most_once (behav : Nat → ProbeId → ProbeResult)
    (probes : List ProbeId) (cmd : List String) (fuel : Nat) :
    (mainLoop behav probes cmd fuel 0).countP isLaunch ≤ 1 ∧
      ∀ pre post, mainLoop behav probes cmd fuel 0 = pre ++ Event.launch cmd :: post →
        post = [] ∧ ∃ j r pre₀, (runProbes (behav j) probes).2 = Except.ok r ∧
          decision r = true ∧ pre = pre₀ ++ (runProbes (behav j) probes).1 :=
  mainLoop_once_aux behav probes cmd fuel 0

/-! ## The one-shot loop sleeps exactly N times before acting (C7) -/

theorem flatMap_range_succ {α : Type} (f : Nat → List α) (n : Nat) :
    (List.range (n + 1)).flatMap f = f 0 ++ (List.range n).flatMap fun j => f (j + 1) := by
  rw [List.range_succ_eq_map, List.flatMap_cons]
  congr 1
  rw [List.flatMap_def, List.flatMap_def, List.map_map]
  rfl

theorem countP_flatMap_one {α β : Type} (p : β → Bool) (f : α → List β) :
    ∀ l : List α, (∀ x ∈ l, (f x).countP p = 1) → (l.flatMap f).countP p = l.length := by
  intro l
  induction l with
  | nil => intro _; simp
  | cons x xs ih =>
    intro h
    rw [List.flatMap_cons, List.countP_append, h x (List.mem_cons_self x xs),
      ih fun y hy => h y (List.mem_cons_of_mem x hy), List.length_cons]
    omega

/-- The shape of the one-shot loop's trace when, starting from cycle `i`,
the first `N` cycles evaluate to a `false` decision and cycle `i + N` to a
`true` one: each early cycle contributes its probe invocations and one
sleep, the final cycle contributes its probe invocations and the launch. -/
theorem mainLoop_run_aux (behav : Nat → ProbeId → ProbeResult) (probes : List ProbeId)
    (cmd : List String) (rs : Nat → List Verdict) :
    ∀ (N i fuel : Nat),
      (∀ j, j ≤ N → (runProbes (behav (i + j)) probes).2 = Except.ok (rs (i + j))) →
      (∀ j, j < N → decision (rs (i + j)) = false) →
      decision (rs (i + N)) = true → N < fuel →
      mainLoop behav probes cmd fuel i =
        ((List.range N).flatMap fun j => (runProbes (behav (i + j)) probes).1 ++ [Event.sleepEv]) ++
          ((runProbes (behav (i + N)) probes).1 ++ [Event.launch cmd]) := by
  intro N
  induction N with
  | zero =>
    intro i fuel hok _ htrue hfuel
    obtain ⟨fuel, rfl⟩ : ∃ f, fuel = f + 1 := ⟨fuel - 1, by omega⟩
    have h0 := hok 0 (Nat.le_refl 0)
    simp only [Nat.add_zero] at h0 htrue
    simp [mainLoop, h0, htrue]
  | succ N ih =>
    intro i fuel hok hfalse htrue hfuel
    obtain ⟨fuel, rfl⟩ : ∃ f, fuel = f + 1 := ⟨fuel - 1, by omega⟩
    have h0 := hok 0 (Nat.zero_le _)
    have hd0 := hfalse 0 (Nat.succ_pos N)
    simp only [Nat.add_zero] at h0 hd0
    have hrec := ih (i + 1) fuel
      (fun j hj => by
        have := hok (j + 1) (by omega)
        rwa [show i + (j + 1) = i + 1 + j from by omega] at this)
      (fun j hj => by
        have := hfalse (j + 1) (by omega)
        rwa [show i + (j + 1) = i + 1 + j from by omega] at this)
      (by rwa [show i + (N + 1) = i + 1 + N from by omega] at htrue)
      (by omega)
    have hml : mainLoop behav probes cmd (fuel + 1) i =
        (runProbes (behav i) probes).1 ++
          Event.sleepEv :: mainLoop behav probes cmd fuel (i + 1) := by
      simp [mainLoop, h0, hd0]
    have hidx : ∀ j, i + 1 + j = i + (j + 1) := fun j => by omega
    simp only [hidx] at hrec
    rw [hml, hrec, flatMap_range_succ]
    simp [List.append_assoc]

/-- C7: in one-shot mode, when the decision is `false` for cycles
`0, …, N-1` and `true` at cycle `N` (each cycle evaluating without a probe
failure), the loop sleeps exactly `N` times, and the trace ends with cycle
`N`'s probe invocations followed directly by the launch — no sleep between
the `true` decision and the launch. -/
theorem one_shot_sleeps_n_times (behav : Nat → ProbeId → ProbeResult)
    (probes : List ProbeId) (cmd : List String) (rs : Nat → List Verdict) (N fuel : Nat)
    (hok : ∀ j, j ≤ N → (runProbes (behav j) probes).2 = Except.ok (rs j))
    (hfalse : ∀ j, j < N → decision (rs j) = false)
    (htrue : decision (rs N) = true) (hfuel : N < fuel) :
    (mainLoop behav probes cmd fuel 0).countP isSleep = N ∧
      mainLoop behav probes cmd fuel 0 =
        ((List.range N).flatMap fun j => (runProbes (behav j) probes).1 ++ [Event.sleepEv]) ++
          ((runProbes (behav N) probes).1 ++ [Event.launch cmd]) := by
  have hch := mainLoop_run_aux behav probes cmd rs N 0 fuel
    (fun j hj => by simpa using hok j hj)
    (fun j hj => by simpa using hfalse j hj)
    (by simpa using htrue) hfuel
  simp only [Nat.zero_add] at hch
  refine ⟨?_, hch⟩
  rw [hch, List.countP_append, List.countP_append]
  rw [countP_flatMap_one isSleep _ (List.range N) fun x _ => by
    rw [List.countP_append,
      runProbes_countP_zero (behav x) probes isSleep fun q => rfl]
    rfl]
  rw [runProbes_countP_zero (behav N) probes isSleep fun q => rfl, List.length_range]
  rfl

/-- A cycle behaviour whose only probe answers `Busy` in cycle 0 and `Idle`
from cycle 1 on. -/
def busyThenIdle : Nat → ProbeId → ProbeResult := fun i _ =>
  if i = 0 then Except.ok (some false) else Except.ok (some true)

/-- The verdict vectors `busyThenIdle` produces for a one-probe set. -/
def busyThenIdleResults : Nat → List Verdict := fun i =>
  if i = 0 then [some false] else [some true]

/-- C7 witness: one `false` cycle then a `true` cycle — exactly one sleep,
then the second cycle's probe call and the launch. -/
theorem one_shot_sleeps_n_times_witness :
    (mainLoop busyThenIdle [ProbeId.proc_uptime] [] 2 0).countP isSleep = 1 ∧
      mainLoop busyThenIdle [ProbeId.proc_uptime] [] 2 0 =
        ((List.range 1).flatMap fun j =>
            (runProbes (busyThenIdle j) [ProbeId.proc_uptime]).1 ++ [Event.sleepEv]) ++
          ((runProbes (busyThenIdle 1) [ProbeId.proc_uptime]).1 ++ [Event.launch []]) :=
  one_shot_sleeps_n_times busyThenIdle [ProbeId.proc_uptime] [] busyThenIdleResults 1 2
    (fun j hj => by interval_cases j <;> rfl)
    (fun j hj => by interval_cases j; rfl)
    rfl (by omega)

/-! ## List mode runs no probe (C8) -/

/-- C8: in `--list` mode `main` prints "All Probes:" and one line naming
each probe selected for the host, then returns at once: its trace holds
only print events — no probe invocation, no sleep, no launch — regardless
of the probes' behaviour, the fuel, the `--test` flag or the command. -/
theorem list_mode_prints_and_runs_no_probe (xp : Option String)
    (behav : Nat → ProbeId → ProbeResult) (fuel : Nat) (t : Bool) (cmd : List String) :
    main ⟨t, true, cmd⟩ xp behav fuel =
      Event.print "All Probes:" ::
        (init_probes xp).map (fun p => Event.print (" * " ++ probeName p)) ∧
      ∀ e ∈ main ⟨t, true, cmd⟩ xp behav fuel, ∃ s, e = Event.print s := by
  refine ⟨rfl, fun e he => ?_⟩
  rw [show main ⟨t, true, cmd⟩ xp behav fuel =
    Event.print "All Probes:" ::
      (init_probes xp).map (fun p => Event.print (" * " ++ probeName p)) from rfl] at he
  rcases List.mem_cons.mp he with rfl | he
  · exact ⟨"All Probes:", rfl⟩
  · obtain ⟨p, _, rfl⟩ := List.mem_map.mp he
    exact ⟨" * " ++ probeName p, rfl⟩

end Onidle
